import Mathlib

/-!
Shallow embedding of `installer.py` (msvc-installer): the integrity-verified
fetcher, the template hook materializer, the package-record picker, the
cabinet-reference byte scanner, the VC component planner, the prefix-selective
zip extractor, the MSVC version discovery and the SDK compatibility check,
together with theorems settling the frozen claims about them.

Conventions of the embedding:
  * Python `bytes` values are `List Nat` (each element one byte).
  * Python strings are Lean `String`; helpers below mirror the exact
    stdlib operations the script calls (`str.lower`, `str.split`,
    `str.startswith`, the `in` substring test, slicing) on the ASCII data
    the script handles.
  * Fallible code returns `Except`; `exit(...)` and an uncaught exception
    both become the `.error` constructor carrying the data the script
    interpolates into its message.
  * Network and hash library calls are explicit parameters: the fetcher
    takes the response body as a list of the chunks `res.read(1 << 20)`
    yields, the `Content-Length` header as an `Option String`, and
    `hashlib.sha256(...).hexdigest()` as a function argument.
-/

/-! ## Python string primitives used by the script -/

/-- `str.lower` restricted to ASCII, which is all the script compares:
uppercase A-Z is shifted to a-z, every other character kept. -/
def pyCharLower (c : Char) : Char :=
  if c.isUpper then Char.ofNat (c.toNat + 32) else c

/-- `s.lower()` on a Lean string. -/
def pyLower (s : String) : String :=
  String.mk (s.data.map pyCharLower)

/-- `s.startswith(p)` (`p.data.isPrefixOf`). -/
def strStarts (s p : String) : Bool :=
  p.data.isPrefixOf s.data

/-- `s.endswith(p)`. -/
def strEnds (s p : String) : Bool :=
  p.data.isSuffixOf s.data

/-- `needle in hay` for lists: some drop of `hay` has `needle` as a prefix. -/
def listContainsSub (hay needle : List Char) : Bool :=
  (List.range (hay.length + 1)).any (fun i => needle.isPrefixOf (hay.drop i))

/-- The Python substring test `needle in hay`. -/
def strContains (hay needle : String) : Bool :=
  listContainsSub hay.data needle.data

/-- `str.split(sep)` for a one-character separator: `"" -> [""]`,
adjacent separators produce empty groups, exactly as in Python. -/
def splitOnChar (sep : Char) : List Char → List (List Char)
  | [] => [[]]
  | c :: cs =>
    if c = sep then [] :: splitOnChar sep cs
    else
      match splitOnChar sep cs with
      | [] => [[c]]
      | g :: gs => (c :: g) :: gs

/-- `pkg_id.split(".")` lifted to Lean strings. -/
def pySplit (s : String) (sep : Char) : List String :=
  (splitOnChar sep s.data).map String.mk

/-- `sep.join(groups)` for a one-character separator. -/
def joinSep (sep : Char) : List (List Char) → List Char
  | [] => []
  | [g] => g
  | g :: gs => g ++ sep :: joinSep sep gs

/-- `".".join(xs)`. -/
def pyJoinDot (xs : List String) : String :=
  String.mk (joinSep '.' (xs.map String.data))

/-- First-match association lookup, the behaviour of indexing the
manifest dictionaries built in `main`. -/
def lookupStr : List (String × String) → String → Option String
  | [], _ => none
  | (k, v) :: rest, q => if k = q then some v else lookupStr rest q

/-- `int(s)` on the nonnegative decimal strings a `Content-Length`
header carries; anything else raises `ValueError` (`none` here). -/
def pyIntStr (s : String) : Option Nat :=
  if s ≠ "" && s.data.all Char.isDigit then
    some (s.data.foldl (fun n c => n * 10 + (c.toNat - 48)) 0)
  else none

/-- Python slice `l[a:b]` with int endpoints: a negative endpoint counts
from the end and is clamped at 0, a large endpoint is clamped at the
length (`Int.toNat` already clamps negatives). -/
def pySliceList (l : List Nat) (a b : Int) : List Nat :=
  let n : Int := l.length
  let s : Nat := (if a < 0 then n + a else a).toNat
  let e : Nat := (if b < 0 then n + b else b).toNat
  (l.take e).drop s

/-! ## `download_progress`: the integrity-verified fetcher

`download_progress(url, check, name, f)` streams the response into both the
caller sink `f` and an in-memory copy, printing a percentage that divides by
the `Content-Length` total, then finalizes a SHA-256 hex digest of the bytes
and exits on mismatch with `check.lower()`. The errors the body can raise:
`int(None)` when the header is missing is a `TypeError`, `int` on a
non-numeric header a `ValueError`, `size * 100 // total` with `total == 0` a
`ZeroDivisionError`, and a digest mismatch reaches
`exit("Hash mismatch for package " + name)`. -/

inductive DLError
  | typeError
  | valueError
  | zeroDivisionError
  | hashMismatch (name : String)
deriving DecidableEq

/-- The `while True` read loop: each nonempty chunk is written to the sink
`f` and to the in-memory buffer `data`, then the progress percentage is
computed (raising `ZeroDivisionError` when the reported total is 0); the
first empty chunk ends the stream. Returns the final `data`, the final sink
contents, and the error if one was raised. -/
def dlLoop (blocks : List (List Nat)) (total : Nat) (data sink : List Nat) :
    List Nat × List Nat × Option DLError :=
  match blocks with
  | [] => (data, sink, none)
  | b :: bs =>
    if b.isEmpty then (data, sink, none)
    else if total = 0 then (data ++ b, sink ++ b, some .zeroDivisionError)
    else dlLoop bs total (data ++ b) (sink ++ b)

/-- The bytes the loop streams: every chunk up to the first empty one. -/
def streamedData (blocks : List (List Nat)) : List Nat :=
  (blocks.takeWhile (fun b => !b.isEmpty)).flatten

/-- `download_progress`, with the response body, the `Content-Length`
header and `hashlib.sha256(...).hexdigest()` made explicit. Returns the
result (`.ok data` or the raised error) together with the final contents
of the destination sink `f`. -/
def download_progress (sha256hex : List Nat → String) (body : List (List Nat))
    (contentLength : Option String) (check name : String) (sink : List Nat) :
    Except DLError (List Nat) × List Nat :=
  match contentLength with
  | none => (.error .typeError, sink)
  | some cl =>
    match pyIntStr cl with
    | none => (.error .valueError, sink)
    | some total =>
      match dlLoop body total [] sink with
      | (_, sinkF, some e) => (.error e, sinkF)
      | (data, sinkF, none) =>
        if pyLower check = sha256hex data then (.ok data, sinkF)
        else (.error (.hashMismatch name), sinkF)

theorem dlLoop_no_error (total : Nat) (htot : total ≠ 0) :
    ∀ (blocks : List (List Nat)) (data sink : List Nat),
      dlLoop blocks total data sink =
        (data ++ streamedData blocks, sink ++ streamedData blocks, none) := by
  intro blocks
  induction blocks with
  | nil => intro data sink; simp [dlLoop, streamedData]
  | cons b bs ih =>
    intro data sink
    by_cases hb : b.isEmpty
    · simp [dlLoop, hb, streamedData, List.takeWhile_cons]
    · rw [dlLoop]
      simp only [hb, Bool.false_eq_true, if_false, htot, if_neg htot]
      rw [ih]
      have hs : streamedData (b :: bs) = b ++ streamedData bs := by
        simp [streamedData, List.takeWhile_cons, hb]
      rw [hs]
      simp [List.append_assoc]

/-- Claim C1: after the stream ends the fetch compares the lower-cased
expected hash with the computed digest (which `hexdigest` always emits in
lowercase, the `hlow` hypothesis) for exact equality; whenever the two
lower-cased hex strings differ the run fails with the integrity error
naming the resource, so the caller never receives the sink contents as a
validated artifact, and only when they agree does the fetch return the
streamed data. -/
theorem download_progress_integrity (sha256hex : List Nat → String)
    (body : List (List Nat)) (cl check name : String) (sink : List Nat)
    (total : Nat) (hcl : pyIntStr cl = some total) (htot : total ≠ 0)
    (hlow : pyLower (sha256hex (streamedData body)) = sha256hex (streamedData body)) :
    (pyLower check ≠ pyLower (sha256hex (streamedData body)) →
      download_progress sha256hex body (some cl) check name sink =
        (.error (.hashMismatch name), sink ++ streamedData body)) ∧
    (pyLower check = pyLower (sha256hex (streamedData body)) →
      download_progress sha256hex body (some cl) check name sink =
        (.ok (streamedData body), sink ++ streamedData body)) := by
  have hrun : download_progress sha256hex body (some cl) check name sink =
      (if pyLower check = sha256hex (streamedData body) then
        (.ok (streamedData body), sink ++ streamedData body)
      else (.error (.hashMismatch name), sink ++ streamedData body)) := by
    simp only [download_progress, hcl, dlLoop_no_error total htot body [] sink,
      List.nil_append]
  constructor
  · intro hne
    rw [hrun, if_neg]
    intro heq
    exact hne (by rw [heq, hlow])
  · intro heq
    rw [hrun, if_pos (by rw [heq, hlow])]

/-- Witness for C1 at a concrete input: body chunks `[7]` then `[8]`, a
content length of 2, digest function constantly `"0abc"`, expected hash
`"0ABD"`: the lower-cased strings differ, so the fetch fails with the
integrity error naming `"pkg"`. -/
theorem download_progress_integrity_witness :
    download_progress (fun _ => "0abc") [[7], [8]] (some "2") "0ABD" "pkg" [] =
      (.error (.hashMismatch "pkg"), [7, 8]) :=
  (download_progress_integrity (fun _ => "0abc") [[7], [8]] "2" "0ABD" "pkg" []
    2 (by decide) (by decide) (by decide)).1 (by decide)

/-- Claim C6 (corrected): when the server reports no content length the
fetch does not degrade to a byte counter; `int(res.headers["Content-Length"])`
is `int(None)`, which raises `TypeError` before a single chunk is read, so
the run crashes with the sink untouched and neither streaming nor digest
checking happens. -/
theorem download_progress_no_content_length (sha256hex : List Nat → String)
    (body : List (List Nat)) (check name : String) (sink : List Nat) :
    download_progress sha256hex body none check name sink =
      (.error .typeError, sink) := rfl

/-- Counterexample to claim C6 as stated: at a concrete fetch whose
response reports no content length, the operation does not complete;
it raises `TypeError` and streams nothing into the sink. -/
theorem download_progress_no_content_length_cex :
    download_progress (fun _ => "aa") [[1]] none "aa" "pkg" [] =
      (.error .typeError, []) := rfl

/-! ## `copy_and_rename`: the hook materializer

`AtTemplate` is `string.Template` with delimiter `@`; `subs` calls
`substitute`, which raises `KeyError(token)` for a placeholder missing from
the map and `ValueError` for an invalid placeholder. `copy_and_rename` opens
the target with mode `"w"` (creating or truncating it) and then writes the
substituted lines one by one, so an exception leaves the lines substituted
so far behind in an existing file. -/

inductive SubstError
  | keyError (token : String)
  | valueError
deriving DecidableEq

/-- Leading character of a `string.Template` identifier: `[_a-zA-Z]`. -/
def isIdStart (c : Char) : Bool := c.isAlpha || c == '_'

/-- Subsequent identifier characters: `[_a-zA-Z0-9]`. -/
def isIdChar (c : Char) : Bool := isIdStart c || c.isDigit

def lbraceChar : Char := Char.ofNat 123

def rbraceChar : Char := Char.ofNat 125

theorem dropWhile_length_le (p : α → Bool) :
    ∀ l : List α, (l.dropWhile p).length ≤ l.length := by
  intro l
  induction l with
  | nil => simp
  | cons a t ih =>
    rw [List.dropWhile_cons]
    by_cases hp : p a
    · simp only [hp, if_true]
      exact Nat.le_trans ih (Nat.le_succ _)
    · simp [hp]

/-- One pass of `Template.substitute` over the characters of a line. The
delimiter `@` escapes itself, introduces a braced or unbraced identifier
that is looked up in the map (`KeyError` when absent), and is otherwise an
invalid placeholder (`ValueError`). The fuel argument only bounds the
recursion; each step consumes at least one character, so any fuel above the
length of the list never runs out. -/
def substAux (m : List (String × String)) : Nat → List Char → Except SubstError (List Char)
  | 0, _ => .error .valueError
  | _ + 1, [] => .ok []
  | fuel + 1, '@' :: rest =>
    match rest with
    | [] => .error .valueError
    | d :: rest2 =>
      if d = '@' then
        ('@' :: ·) <$> substAux m fuel rest2
      else if d = lbraceChar then
        match rest2.dropWhile isIdChar with
        | [] => .error .valueError
        | c3 :: rest4 =>
          let tok := rest2.takeWhile isIdChar
          if c3 = rbraceChar ∧ tok ≠ [] ∧ isIdStart (tok.headD ' ') then
            match lookupStr m (String.mk tok) with
            | some v => (fun t => v.data ++ t) <$> substAux m fuel rest4
            | none => .error (.keyError (String.mk tok))
          else .error .valueError
      else if isIdStart d then
        let tok := d :: rest2.takeWhile isIdChar
        match lookupStr m (String.mk tok) with
        | some v => (fun t => v.data ++ t) <$> substAux m fuel (rest2.dropWhile isIdChar)
        | none => .error (.keyError (String.mk tok))
      else .error .valueError
  | fuel + 1, c :: rest => (c :: ·) <$> substAux m fuel rest

/-- `subs(line, substitutes)`: substitute over one line. -/
def subs (line : String) (m : List (String × String)) : Except SubstError String :=
  String.mk <$> substAux m (line.data.length + 1) line.data

/-- The write loop of `copy_and_rename`: substitute and write line by
line; the first failing line stops the loop with the lines already
written. -/
def writeLinesLoop (m : List (String × String)) :
    List String → List String × Option SubstError
  | [] => ([], none)
  | l :: ls =>
    match subs l m with
    | .error e => ([], some e)
    | .ok s =>
      match writeLinesLoop m ls with
      | (w, e) => (s :: w, e)

/-- `copy_and_rename(source, target, substitutes)` on the template lines:
`open(target, "w")` creates (or truncates) the target before any line is
processed, so the first component — the file contents found at the target
path afterwards — is always `some` list of lines, never an absent file;
the second component is the exception raised, if any. -/
def copy_and_rename (sourceLines : List String) (m : List (String × String)) :
    Option (List String) × Option SubstError :=
  (some (writeLinesLoop m sourceLines).1, (writeLinesLoop m sourceLines).2)

/-- Claim C3 (corrected): a template referencing a token absent from the
substitution map makes `copy_and_rename` fail with the `KeyError` naming
the token (the undefined-token error), but the target file does exist
afterwards — `open(target, "w")` creates or truncates it before the first
substitution, so the failing run leaves behind a file holding the lines
substituted before the error, not an unchanged filesystem. -/
theorem copy_and_rename_keeps_file (lines : List String)
    (m : List (String × String)) (T : String)
    (hT : T.data ≠ [] ∧ isIdStart (T.data.headD ' ') = true ∧
      T.data.all isIdChar = true)
    (hm : lookupStr m T = none) :
    (copy_and_rename lines m).1 ≠ none ∧
    subs ("@" ++ T) m = .error (.keyError T) ∧
    copy_and_rename ["@" ++ T] m = (some [], some (.keyError T)) := by
  obtain ⟨hne, hstart0, hall0⟩ := hT
  obtain ⟨d, rest, hTd⟩ : ∃ d rest, T.data = d :: rest := by
    cases hL : T.data with
    | nil => exact absurd hL hne
    | cons d rest => exact ⟨d, rest, rfl⟩
  rw [hTd] at hstart0 hall0
  have hstart : isIdStart d = true := by simpa using hstart0
  have hall : ∀ c ∈ rest, isIdChar c = true := by
    intro c hc
    have := (List.all_eq_true.mp hall0) c (List.mem_cons_of_mem _ hc)
    exact this
  have hd_at : ¬(d = '@') := by
    intro h; rw [h] at hstart; exact absurd hstart (by decide)
  have hd_lb : ¬(d = lbraceChar) := by
    intro h; rw [h] at hstart; exact absurd hstart (by decide)
  have htake : rest.takeWhile isIdChar = rest :=
    List.takeWhile_eq_self_iff.mpr hall
  have hdrop : rest.dropWhile isIdChar = [] :=
    List.dropWhile_eq_nil_iff.mpr hall
  have hmkT : String.mk (d :: rest) = T := by rw [← hTd]
  have hsub : ∀ k, substAux m (k + 1) ('@' :: d :: rest) =
      .error (.keyError T) := by
    intro k
    rw [substAux]
    simp only [hd_at, if_false, hd_lb, hstart, if_true, htake, hdrop, hmkT, hm]
  have hdata : ("@" ++ T).data = '@' :: d :: rest := by
    rw [String.data_append, hTd]; rfl
  have hsubs : subs ("@" ++ T) m = .error (.keyError T) := by
    rw [subs, hdata]
    rw [show ('@' :: d :: rest).length + 1 = (rest.length + 2) + 1 by simp]
    rw [hsub (rest.length + 2)]
    rfl
  refine ⟨by simp [copy_and_rename], hsubs, ?_⟩
  simp [copy_and_rename, writeLinesLoop, hsubs]

/-- Witness for C3 at a concrete input: the one-line template
`@UNKNOWN_TOKEN` with an empty substitution map fails with the
`KeyError` for `UNKNOWN_TOKEN` while the (empty) output file exists. -/
theorem copy_and_rename_keeps_file_witness :
    (copy_and_rename ["x"] []).1 ≠ none ∧
    subs ("@" ++ "UNKNOWN_TOKEN") [] = .error (.keyError "UNKNOWN_TOKEN") ∧
    copy_and_rename ["@" ++ "UNKNOWN_TOKEN"] [] =
      (some [], some (.keyError "UNKNOWN_TOKEN")) :=
  copy_and_rename_keeps_file ["x"] [] "UNKNOWN_TOKEN" (by decide) rfl

/-- Counterexample to claim C3 as stated: on the concrete template line
`@UNKNOWN_TOKEN` with an empty substitution map, `copy_and_rename` raises
the undefined-token error, yet an output file (an empty one) exists at the
output path afterwards — the filesystem state at the output path is not
unchanged on error. -/
theorem copy_and_rename_file_exists_cex :
    copy_and_rename ["@UNKNOWN_TOKEN"] [] =
      (some [], some (.keyError "UNKNOWN_TOKEN")) ∧
    (some ([] : List String)) ≠ (none : Option (List String)) := by
  exact ⟨rfl, by simp⟩

/-! ## `first` and the package record chosen for a VC payload

`first(items, cond)` is `next(item for item in items if cond(item))`: the
first element satisfying the predicate, raising `StopIteration` when none
does. For each selected VC package id, `install_vc_components` downloads
from `first(packages[pkg], lambda p: p.get("language") in (None, "en-US"))`. -/

/-- One downloadable payload of a package record. -/
structure Payload where
  url : String
  sha256 : String
  fileName : Option String
deriving DecidableEq

/-- A package record of the sub-manifest: `p.get("language")` is `none`
when the record carries no language attribute. -/
structure PkgRecord where
  language : Option String
  payloads : List Payload
  dependencies : List String
deriving DecidableEq

/-- `first(items, cond)`: `StopIteration` when no element matches. -/
def first (items : List α) (cond : α → Bool) : Except String α :=
  match items.find? cond with
  | some x => .ok x
  | none => .error "StopIteration"

/-- `p.get("language") in (None, "en-US")`. -/
def langOk (p : PkgRecord) : Bool :=
  p.language == none || p.language == some "en-US"

/-- The record `install_vc_components` downloads a package from. -/
def pickPackageRecord (records : List PkgRecord) : Except String PkgRecord :=
  first records langOk

theorem find?_split (p : α → Bool) :
    ∀ (l : List α) (a : α), l.find? p = some a →
      ∃ l1 l2, l = l1 ++ a :: l2 ∧ (∀ x ∈ l1, p x = false) ∧ p a = true := by
  intro l
  induction l with
  | nil => intro a h; simp [List.find?] at h
  | cons x xs ih =>
    intro a h
    by_cases hx : p x
    · rw [List.find?_cons_of_pos _ hx] at h
      obtain rfl : x = a := by injection h
      exact ⟨[], xs, rfl, by simp, hx⟩
    · rw [List.find?_cons_of_neg _ hx] at h
      obtain ⟨l1, l2, hsplit, hl1, hpa⟩ := ih a h
      exact ⟨x :: l1, l2, by rw [hsplit]; rfl,
        by
          intro y hy
          rcases List.mem_cons.mp hy with rfl | hy2
          · exact Bool.not_eq_true _ ▸ (by simpa using hx)
          · exact hl1 y hy2,
        hpa⟩

/-- Claim C9: the record used as the download source is the first record
in the index entry whose language attribute is absent or `"en-US"`; when
no record qualifies, the generator in `first` is exhausted and the run
fails with `StopIteration` instead of falling back to another language. -/
theorem pickPackageRecord_first_english (records : List PkgRecord) :
    ((∀ r ∈ records, langOk r = false) →
      pickPackageRecord records = .error "StopIteration") ∧
    (∀ r, pickPackageRecord records = .ok r →
      langOk r = true ∧
      ∃ pre post, records = pre ++ r :: post ∧ ∀ q ∈ pre, langOk q = false) := by
  constructor
  · intro hnone
    have : records.find? langOk = none := by
      rw [List.find?_eq_none]
      intro x hx
      simp [hnone x hx]
    simp [pickPackageRecord, first, this]
  · intro r hr
    have hfind : records.find? langOk = some r := by
      unfold pickPackageRecord first at hr
      cases hf : records.find? langOk with
      | none => simp [hf] at hr
      | some x =>
        simp only [hf] at hr
        injection hr with h
        rw [h]
    obtain ⟨pre, post, hsplit, hpre, hpr⟩ := find?_split langOk records r hfind
    exact ⟨hpr, pre, post, hsplit, hpre⟩

/-- Witness for C9 at a concrete input: an entry holding only a `de-DE`
record is rejected — the run stops with `StopIteration` rather than
falling back to the German record. -/
theorem pickPackageRecord_first_english_witness :
    pickPackageRecord [⟨some "de-DE", [], []⟩] = .error "StopIteration" :=
  (pickPackageRecord_first_english [⟨some "de-DE", [], []⟩]).1 (by decide)

/-! ## The VC installation planner

`install_vc_components` builds the `vc_packages` dict of per-component
package-id templates and flattens it over the `components` argument with
`[c for component in components for c in vc_packages.get(component, [])]`.
The caller passes `components = set(args.components)`, so the outer loop
runs in the iteration order of a Python `set`, which is unspecified; the
embedding therefore takes the components as the list the iteration
yields. -/

/-- `vc_packages.get(component, [])`: the fixed ordered id-template list
of one component, the empty list for any other name. -/
def vc_packages (msvc_ver host target component : String) : List String :=
  if component = "msvc" then
    ["microsoft.vc." ++ msvc_ver ++ ".tools.host" ++ host ++ ".target" ++
       target ++ ".base",
     "microsoft.vc." ++ msvc_ver ++ ".tools.host" ++ host ++ ".target" ++
       target ++ ".res.base"]
  else if component = "crt" then
    ["microsoft.vc." ++ msvc_ver ++ ".crt.headers.base",
     "microsoft.vc." ++ msvc_ver ++ ".crt." ++ target ++ ".desktop.base",
     "microsoft.vc." ++ msvc_ver ++ ".crt." ++ target ++ ".store.base",
     "microsoft.vc." ++ msvc_ver ++ ".crt.source.base"]
  else if component = "asan" then
    ["microsoft.vc." ++ msvc_ver ++ ".asan.headers.base",
     "microsoft.vc." ++ msvc_ver ++ ".asan." ++ target ++ ".base"]
  else []

/-- `selected_msvc_components`: the flattened payload list, in the order
the component set iterates then the fixed within-component order. -/
def selected_msvc_components (components : List String)
    (msvc_ver host target : String) : List String :=
  (components.map (vc_packages msvc_ver host target)).flatten

theorem perm_pair {α : Type} {a b : α} (hab : a ≠ b) (l : List α)
    (hp : l.Perm [a, b]) : l = [a, b] ∨ l = [b, a] := by
  have hlen : l.length = 2 := by simpa using hp.length_eq
  obtain ⟨x, y, rfl⟩ : ∃ x y, l = [x, y] := by
    match l, hlen with
    | [x, y], _ => exact ⟨x, y, rfl⟩
  have hb2 : b ∈ [x, y] := hp.mem_iff.mpr (by simp)
  have ha2 : a ∈ [x, y] := hp.mem_iff.mpr (by simp)
  rcases List.mem_pair.mp (hp.mem_iff.mp (show x ∈ [x, y] by simp)) with
    hxa | hxb
  · left
    rcases List.mem_pair.mp hb2 with h | h
    · exact absurd (hxa ▸ h) hab.symm
    · rw [hxa, ← h]
  · right
    rcases List.mem_pair.mp ha2 with h | h
    · exact absurd (h.trans hxb) hab
    · rw [hxb, ← h]

/-- Claim C7 (corrected): with components `{msvc, crt}`, version
`14.38.33130`, host `x64`, target `x64`, the planner emits the two msvc
ids and the four crt ids with within-component order fixed and no
deduplication — but the relative order of the two blocks follows the
iteration order of the Python set `components`, which is unspecified,
not a guaranteed msvc-then-crt selection order. -/
theorem selected_msvc_components_pair (order : List String)
    (hp : order.Perm ["msvc", "crt"]) :
    (order = ["msvc", "crt"] ∧
      selected_msvc_components order "14.38.33130" "x64" "x64" =
        ["microsoft.vc.14.38.33130.tools.hostx64.targetx64.base",
         "microsoft.vc.14.38.33130.tools.hostx64.targetx64.res.base",
         "microsoft.vc.14.38.33130.crt.headers.base",
         "microsoft.vc.14.38.33130.crt.x64.desktop.base",
         "microsoft.vc.14.38.33130.crt.x64.store.base",
         "microsoft.vc.14.38.33130.crt.source.base"]) ∨
    (order = ["crt", "msvc"] ∧
      selected_msvc_components order "14.38.33130" "x64" "x64" =
        ["microsoft.vc.14.38.33130.crt.headers.base",
         "microsoft.vc.14.38.33130.crt.x64.desktop.base",
         "microsoft.vc.14.38.33130.crt.x64.store.base",
         "microsoft.vc.14.38.33130.crt.source.base",
         "microsoft.vc.14.38.33130.tools.hostx64.targetx64.base",
         "microsoft.vc.14.38.33130.tools.hostx64.targetx64.res.base"]) := by
  rcases perm_pair (show "msvc" ≠ "crt" by decide) order hp with rfl | rfl
  · exact Or.inl ⟨rfl, by decide⟩
  · exact Or.inr ⟨rfl, by decide⟩

/-- Witness for C7 at the concrete iteration order `["msvc", "crt"]`. -/
theorem selected_msvc_components_pair_witness :
    (["msvc", "crt"] = ["msvc", "crt"] ∧
      selected_msvc_components ["msvc", "crt"] "14.38.33130" "x64" "x64" =
        ["microsoft.vc.14.38.33130.tools.hostx64.targetx64.base",
         "microsoft.vc.14.38.33130.tools.hostx64.targetx64.res.base",
         "microsoft.vc.14.38.33130.crt.headers.base",
         "microsoft.vc.14.38.33130.crt.x64.desktop.base",
         "microsoft.vc.14.38.33130.crt.x64.store.base",
         "microsoft.vc.14.38.33130.crt.source.base"]) ∨
    (["msvc", "crt"] = ["crt", "msvc"] ∧
      selected_msvc_components ["msvc", "crt"] "14.38.33130" "x64" "x64" =
        ["microsoft.vc.14.38.33130.crt.headers.base",
         "microsoft.vc.14.38.33130.crt.x64.desktop.base",
         "microsoft.vc.14.38.33130.crt.x64.store.base",
         "microsoft.vc.14.38.33130.crt.source.base",
         "microsoft.vc.14.38.33130.tools.hostx64.targetx64.base",
         "microsoft.vc.14.38.33130.tools.hostx64.targetx64.res.base"]) :=
  selected_msvc_components_pair ["msvc", "crt"] (List.Perm.refl _)

/-- Counterexample to claim C7 as stated: the set `{msvc, crt}` may
iterate as `["crt", "msvc"]` (Python set order is hash-dependent), and
then the planner emits the four crt ids before the two msvc ids — not
the msvc ids followed by the crt ids the claim fixes. -/
theorem selected_msvc_components_order_cex :
    selected_msvc_components ["crt", "msvc"] "14.38.33130" "x64" "x64" =
      ["microsoft.vc.14.38.33130.crt.headers.base",
       "microsoft.vc.14.38.33130.crt.x64.desktop.base",
       "microsoft.vc.14.38.33130.crt.x64.store.base",
       "microsoft.vc.14.38.33130.crt.source.base",
       "microsoft.vc.14.38.33130.tools.hostx64.targetx64.base",
       "microsoft.vc.14.38.33130.tools.hostx64.targetx64.res.base"] ∧
    (["microsoft.vc.14.38.33130.crt.headers.base",
      "microsoft.vc.14.38.33130.crt.x64.desktop.base",
      "microsoft.vc.14.38.33130.crt.x64.store.base",
      "microsoft.vc.14.38.33130.crt.source.base",
      "microsoft.vc.14.38.33130.tools.hostx64.targetx64.base",
      "microsoft.vc.14.38.33130.tools.hostx64.targetx64.res.base"] :
        List String) ≠
      ["microsoft.vc.14.38.33130.tools.hostx64.targetx64.base",
       "microsoft.vc.14.38.33130.tools.hostx64.targetx64.res.base",
       "microsoft.vc.14.38.33130.crt.headers.base",
       "microsoft.vc.14.38.33130.crt.x64.desktop.base",
       "microsoft.vc.14.38.33130.crt.x64.store.base",
       "microsoft.vc.14.38.33130.crt.source.base"] := by
  exact ⟨by decide, by decide⟩

/-- Claim C10: a selected component name outside msvc/crt/asan — in
particular `sdk` — hits the `.get(component, [])` default, contributes
zero package ids, and its presence anywhere in the iteration order leaves
the planned payload list unchanged. -/
theorem unknown_component_contributes_nothing (l1 l2 : List String)
    (c msvc_ver host target : String)
    (hc : c ≠ "msvc" ∧ c ≠ "crt" ∧ c ≠ "asan") :
    vc_packages msvc_ver host target c = [] ∧
    selected_msvc_components (l1 ++ c :: l2) msvc_ver host target =
      selected_msvc_components (l1 ++ l2) msvc_ver host target := by
  have hempty : vc_packages msvc_ver host target c = [] := by
    simp [vc_packages, hc.1, hc.2.1, hc.2.2]
  refine ⟨hempty, ?_⟩
  simp [selected_msvc_components, hempty]

/-- Witness for C10 at a concrete input: inserting `sdk` between `msvc`
and `crt` leaves the planned list unchanged. -/
theorem unknown_component_contributes_nothing_witness :
    vc_packages "14.38.33130" "x64" "x64" "sdk" = [] ∧
    selected_msvc_components (["msvc"] ++ "sdk" :: ["crt"]) "14.38.33130"
        "x64" "x64" =
      selected_msvc_components (["msvc"] ++ ["crt"]) "14.38.33130" "x64"
        "x64" :=
  unknown_component_contributes_nothing ["msvc"] ["crt"] "sdk" "14.38.33130"
    "x64" "x64" (by decide)

/-! ## MSVC version discovery in `main`

`main` iterates the lower-cased keys of the package index in insertion
order; for a key with the VC component namespace as prefix and the
`.x86.x64` architecture-pair suffix it joins segments `[4:7]` of the
dot-split key as the candidate version and records `msvc[pkg_ver] = pkg_id`
when the first character is numeric (`pkg_ver[0]` raises `IndexError` on an
empty string). A Python dict assignment keeps the position of an existing
key and appends a new one. -/

/-- Python dict assignment `d[k] = v` on an insertion-ordered
association list. -/
def dictInsert (d : List (String × String)) (k v : String) :
    List (String × String) :=
  if d.any (fun p => p.1 == k) then
    d.map (fun p => if p.1 == k then (k, v) else p)
  else d ++ [(k, v)]

/-- One iteration of the discovery loop over a package-index key. -/
def msvcStep (m : List (String × String)) (pkg_id : String) :
    Except String (List (String × String)) :=
  if strStarts pkg_id "microsoft.visualstudio.component.vc." &&
      strEnds pkg_id ".x86.x64" then
    let pkg_ver := pyJoinDot (((pySplit pkg_id '.').drop 4).take 3)
    match pkg_ver.data with
    | [] => .error "IndexError"
    | c :: _ => if c.isDigit then .ok (dictInsert m pkg_ver pkg_id) else .ok m
  else .ok m

/-- The `msvc` version map built by `main` from the index keys in
iteration order. -/
def msvc_version_map (pkg_ids : List String) :
    Except String (List (String × String)) :=
  pkg_ids.foldlM msvcStep []

/-- Claim C2 (corrected): for the index key
`microsoft.visualstudio.component.vc.14.38.33130.x86.x64` the discovery
joins split segments 4, 5 and 6, so the version map entry it produces has
the full key `14.38.33130` mapped to that identifier. -/
theorem msvc_version_map_scenario_a :
    msvc_version_map
        ["microsoft.visualstudio.component.vc.14.38.33130.x86.x64"] =
      .ok [("14.38.33130",
        "microsoft.visualstudio.component.vc.14.38.33130.x86.x64")] := by
  rfl

/-- Counterexample to claim C2 as stated: the map the discovery produces
for that identifier holds the single key `14.38.33130`; it has no entry
with key `14.38`. -/
theorem msvc_version_map_no_short_key_cex :
    msvc_version_map
        ["microsoft.visualstudio.component.vc.14.38.33130.x86.x64"] =
      .ok [("14.38.33130",
        "microsoft.visualstudio.component.vc.14.38.33130.x86.x64")] ∧
    lookupStr [("14.38.33130",
        "microsoft.visualstudio.component.vc.14.38.33130.x86.x64")]
      "14.38" = none := by
  exact ⟨by rfl, by rfl⟩

/-! ## The SDK phase of `main`: version resolution and the Windows
compatibility check

With `sdk` selected, `main` looks `args.sdk_version` up in the discovered
`sdk` map (exiting with the unknown-version message otherwise) and then
runs `if not sdk_win_version or sdk_win_version.lower() not in sdk_pkg_id:`
— exiting with a message that interpolates the asserted Windows version and
the whole available-SDK dict — before calling `install_sdk`. Note the first
disjunct: an absent or empty `--sdk-win-version` also takes the exit. -/

inductive SdkError
  | unknownVersion (requested : Option String)
      (available : List (String × String))
  | incompatible (winVersion : Option String)
      (available : List (String × String))
deriving DecidableEq

/-- Python truthiness of the optional `--sdk-win-version` string. -/
def optTruthy : Option String → Bool
  | none => false
  | some s => !(s == "")

/-- The SDK branch of `main` up to the call of `install_sdk`, returning
the resolved SDK package id it proceeds with. -/
def sdkPhase (sdkMap : List (String × String))
    (sdkVersion sdkWinVersion : Option String) : Except SdkError String :=
  match sdkVersion.bind (lookupStr sdkMap) with
  | some sdk_pkg_id =>
    if optTruthy sdkWinVersion = false ∨
        strContains sdk_pkg_id (pyLower (sdkWinVersion.getD "")) = false then
      .error (.incompatible sdkWinVersion sdkMap)
    else .ok sdk_pkg_id
  | none => .error (.unknownVersion sdkVersion sdkMap)

/-- Claim C5 (corrected): when the requested SDK version resolves to a
package identifier (a lower-cased index key, hypothesis `hpid`), the
phase fails with the compatibility error — which carries the available
SDK map it reports — exactly when the asserted Windows version is absent,
empty, or not a case-insensitive substring of the identifier; it proceeds
to install exactly when a non-empty asserted version is a
case-insensitive substring. The claim's `if and only if` misses the
absent/empty case, in which Python's falsiness test also takes the
compatibility exit. -/
theorem sdkPhase_compat_check (sdkMap : List (String × String))
    (v pid : String) (w : Option String)
    (hl : lookupStr sdkMap v = some pid) (hpid : pyLower pid = pid) :
    (sdkPhase sdkMap (some v) w = .error (.incompatible w sdkMap) ↔
      (w = none ∨ w = some "" ∨
        ∃ s, w = some s ∧ strContains (pyLower pid) (pyLower s) = false)) ∧
    (∀ s, w = some s → s ≠ "" →
      (sdkPhase sdkMap (some v) w = .ok pid ↔
        strContains (pyLower pid) (pyLower s) = true)) := by
  have hbind : (some v).bind (lookupStr sdkMap) = some pid := by simp [hl]
  constructor
  · cases w with
    | none =>
      simp [sdkPhase, hbind, optTruthy]
    | some s =>
      by_cases hs : s = ""
      · subst hs
        simp [sdkPhase, hbind, optTruthy]
      · have ht : optTruthy (some s) = true := by
          simp [optTruthy, hs]
        constructor
        · intro herr
          refine Or.inr (Or.inr ⟨s, rfl, ?_⟩)
          rw [hpid]
          by_contra hcon
          have hcon2 : strContains pid (pyLower s) = true := by
            cases hcc : strContains pid (pyLower s) with
            | true => rfl
            | false => exact absurd hcc hcon
          simp [sdkPhase, hbind, ht, hcon2] at herr
        · intro hdis
          rcases hdis with h | h | ⟨s2, hs2, hfail⟩
          · exact absurd h (by simp)
          · exact absurd (by injection h) hs
          · obtain rfl : s2 = s := by injection hs2 with h2; exact h2.symm
            rw [hpid] at hfail
            simp [sdkPhase, hbind, ht, hfail]
  · intro s hws hs
    subst hws
    have ht : optTruthy (some s) = true := by simp [optTruthy, hs]
    rw [hpid]
    constructor
    · intro hok
      by_contra hcon
      have hfail : strContains pid (pyLower s) = false := by
        cases hcc : strContains pid (pyLower s) with
        | true => exact absurd hcc hcon
        | false => rfl
      simp [sdkPhase, hbind, ht, hfail] at hok
    · intro hsubstr
      simp [sdkPhase, hbind, ht, hsubstr]

/-- Witness for C5 at a concrete input: the asserted version `Windows11`
is a case-insensitive substring of the resolved identifier
`microsoft.visualstudio.component.windows11sdk.22621`, so the phase
proceeds with that identifier. -/
theorem sdkPhase_compat_check_witness :
    sdkPhase
        [("22621", "microsoft.visualstudio.component.windows11sdk.22621")]
        (some "22621") (some "Windows11") =
      .ok "microsoft.visualstudio.component.windows11sdk.22621" :=
  ((sdkPhase_compat_check
      [("22621", "microsoft.visualstudio.component.windows11sdk.22621")]
      "22621" "microsoft.visualstudio.component.windows11sdk.22621"
      (some "Windows11") (by decide) (by decide)).2 "Windows11" rfl
      (by decide)).mpr (by decide)

/-- Counterexample to claim C5 as stated: with the empty string asserted
as the Windows version — which is a case-insensitive substring of every
resolved identifier, so the claim requires installation to proceed — the
code takes the falsiness branch and fails with the compatibility error. -/
theorem sdkPhase_empty_assertion_cex :
    sdkPhase
        [("22621", "microsoft.visualstudio.component.windows11sdk.22621")]
        (some "22621") (some "") =
      .error (.incompatible (some "")
        [("22621", "microsoft.visualstudio.component.windows11sdk.22621")]) ∧
    strContains
        (pyLower "microsoft.visualstudio.component.windows11sdk.22621")
        (pyLower "") = true := by
  exact ⟨by rfl, by decide⟩

/-! ## The prefix-selective zip extraction of `install_vc_components`

For each downloaded archive the loop enumerates `z.namelist()` and, for
every entry whose name starts with the marker (`"Contents/"` in the
script), writes the entry bytes to
`install_prefix / Path(name).relative_to("Contents")` after creating
parent directories, overwriting whatever was there. The filesystem is a
map from path to file bytes; directory creation is idempotent and not
tracked. The marker string is a parameter so the routine is stated, as the
spec states it, for any path prefix. -/

/-- A zip entry: its archive path and decompressed bytes. -/
structure ZipEntry where
  name : String
  content : List Nat
deriving DecidableEq

/-- Filesystem state at each path: `some bytes` when a file exists. -/
def FS : Type := String → Option (List Nat)

/-- `out.write_bytes(...)`: overwrite-or-create one path. -/
def fsWrite (fs : FS) (p : String) (bs : List Nat) : FS :=
  fun q => if q = p then some bs else fs q

/-- The target path of a matching entry: destination root joined with the
entry path made relative to the marker directory (dropping the marker and
its trailing slash, `marker.length` characters). -/
def entryDest (marker destRoot : String) (name : String) : String :=
  destRoot ++ "/" ++ String.mk (name.data.drop marker.data.length)

/-- One loop iteration: entries whose name starts with the marker are
written to their destination; others are skipped without error. -/
def extractStep (marker destRoot : String) (fs : FS) (e : ZipEntry) : FS :=
  if strStarts e.name marker then
    fsWrite fs (entryDest marker destRoot e.name) e.content
  else fs

/-- The whole extraction pass over an archive. -/
def extractPrefixed (marker destRoot : String) (entries : List ZipEntry)
    (fs : FS) : FS :=
  entries.foldl (extractStep marker destRoot) fs

/-- The last write the pass performs at path `q`, if any. -/
def lastWrite (marker destRoot : String) (entries : List ZipEntry)
    (q : String) : Option (List Nat) :=
  entries.foldl
    (fun acc e =>
      if strStarts e.name marker ∧ entryDest marker destRoot e.name = q then
        some e.content
      else acc)
    none

theorem lastWrite_foldl_acc (marker destRoot : String) :
    ∀ (entries : List ZipEntry) (q : String) (acc : Option (List Nat)),
      entries.foldl
          (fun a e =>
            if strStarts e.name marker ∧
                entryDest marker destRoot e.name = q then
              some e.content
            else a)
          acc =
        match lastWrite marker destRoot entries q with
        | some b => some b
        | none => acc := by
  intro entries
  induction entries with
  | nil => intro q acc; simp [lastWrite]
  | cons e es ih =>
    intro q acc
    have hlw : lastWrite marker destRoot (e :: es) q =
        match lastWrite marker destRoot es q with
        | some b => some b
        | none =>
          if strStarts e.name marker ∧ entryDest marker destRoot e.name = q
          then some e.content else none := by
      simp only [lastWrite, List.foldl_cons]
      rw [ih]
      rfl
    rw [List.foldl_cons, ih, hlw]
    cases lastWrite marker destRoot es q with
    | some b => rfl
    | none =>
      by_cases hc : strStarts e.name marker ∧
        entryDest marker destRoot e.name = q
      · simp [hc]
      · simp [hc]

theorem lastWrite_cons (marker destRoot : String) (e : ZipEntry)
    (es : List ZipEntry) (q : String) :
    lastWrite marker destRoot (e :: es) q =
      match lastWrite marker destRoot es q with
      | some b => some b
      | none =>
        if strStarts e.name marker ∧ entryDest marker destRoot e.name = q
        then some e.content else none := by
  simp only [lastWrite, List.foldl_cons]
  rw [lastWrite_foldl_acc]
  rfl

theorem extractPrefixed_point (marker destRoot : String) :
    ∀ (entries : List ZipEntry) (fs : FS) (q : String),
      extractPrefixed marker destRoot entries fs q =
        match lastWrite marker destRoot entries q with
        | some b => some b
        | none => fs q := by
  intro entries
  induction entries with
  | nil => intro fs q; simp [extractPrefixed, lastWrite]
  | cons e es ih =>
    intro fs q
    have h1 : extractPrefixed marker destRoot (e :: es) fs q =
        extractPrefixed marker destRoot es
          (extractStep marker destRoot fs e) q := by
      simp [extractPrefixed, List.foldl_cons]
    rw [h1, ih, lastWrite_cons]
    cases lastWrite marker destRoot es q with
    | some b => rfl
    | none =>
      by_cases hst : strStarts e.name marker
      · by_cases hq : entryDest marker destRoot e.name = q
        · simp [extractStep, hst, fsWrite, hq]
        · have hq2 : ¬(q = entryDest marker destRoot e.name) :=
            fun h => hq h.symm
          simp [extractStep, hst, fsWrite, hq, hq2]
      · simp [extractStep, hst]

theorem lastWrite_filter (marker destRoot : String) :
    ∀ (entries : List ZipEntry) (q : String),
      lastWrite marker destRoot
          (entries.filter (fun e => strStarts e.name marker)) q =
        lastWrite marker destRoot entries q := by
  intro entries
  induction entries with
  | nil => intro q; rfl
  | cons e es ih =>
    intro q
    by_cases hst : strStarts e.name marker
    · simp only [List.filter_cons, hst, if_true]
      rw [lastWrite_cons, lastWrite_cons, ih]
    · simp only [List.filter_cons, hst, Bool.false_eq_true, if_false]
      rw [lastWrite_cons, ih]
      cases lastWrite marker destRoot es q with
      | some b => rfl
      | none => simp [hst]

/-- Claim C8: the prefix-selective extraction is idempotent — for every
archive, marker prefix, destination root and starting filesystem, running
the pass on its own output changes nothing, because each matching entry is
rewritten to the same destination path with the same bytes (existing files
are overwritten byte-for-byte); and entries not matching the prefix are
skipped without error, so dropping them from the archive gives the same
output tree. -/
theorem extractPrefixed_idempotent (marker destRoot : String)
    (entries : List ZipEntry) (fs : FS) :
    extractPrefixed marker destRoot entries
        (extractPrefixed marker destRoot entries fs) =
      extractPrefixed marker destRoot entries fs ∧
    extractPrefixed marker destRoot entries fs =
      extractPrefixed marker destRoot
        (entries.filter (fun e => strStarts e.name marker)) fs := by
  constructor
  · funext q
    rw [extractPrefixed_point, extractPrefixed_point]
    cases lastWrite marker destRoot entries q with
    | some b => rfl
    | none => rfl
  · funext q
    rw [extractPrefixed_point, extractPrefixed_point, lastWrite_filter]

/-! ## `get_msi_cabs`: the cabinet-reference byte scanner

The generator starts at `index = 0` and repeatedly runs
`index = msi.find(b".cab", index + 4)` — so the very first search already
begins at offset 4 — returning on `-1` and otherwise yielding
`msi[index - 32 : index + 4].decode("ascii")`. Negative slice starts wrap
to the end of the buffer in Python and are clamped at 0 after adding the
length, and `decode` raises `UnicodeDecodeError` on a byte at 128 or
above. The recursion is written with fuel; every found index is at least
4 beyond the previous search start, so fuel `msi.length + 1` never runs
out (the theorems below prove the fuel branch unreachable by always
producing an `.ok` result). -/

/-- The literal byte sequence `b".cab"`. -/
def cabMarker : List Nat := [46, 99, 97, 98]

/-- Linear scan for `bytes.find(pat, start)`: the least `i` at or after
`start` where `pat` occurs; the fuel covers positions `start` through
`msi.length`. -/
def bytesFindAux (msi pat : List Nat) (start fuel : Nat) : Option Nat :=
  match fuel with
  | 0 => none
  | f + 1 =>
    if pat.isPrefixOf (msi.drop start) then some start
    else if start < msi.length then bytesFindAux msi pat (start + 1) f
    else none

/-- `msi.find(pat, start)`, with `none` for Python's `-1`. -/
def bytesFind (msi pat : List Nat) (start : Nat) : Option Nat :=
  bytesFindAux msi pat start (msi.length + 1 - start)

/-- `bytes.decode("ascii")`: every byte must be below 128. -/
def decodeAscii (bs : List Nat) : Except String String :=
  if bs.all (fun b => b < 128) then .ok (String.mk (bs.map Char.ofNat))
  else .error "UnicodeDecodeError"

/-- The bytes of one yielded name: `msi[index - 32 : index + 4]`. -/
def cabBytes (msi : List Nat) (i : Nat) : List Nat :=
  pySliceList msi ((i : Int) - 32) ((i : Int) + 4)

/-- The scanning loop from a given previous index. -/
def get_msi_cabs_from (msi : List Nat) (index fuel : Nat) :
    Except String (List String) :=
  match fuel with
  | 0 => .error "fuel exhausted"
  | f + 1 =>
    match bytesFind msi cabMarker (index + 4) with
    | none => .ok []
    | some i =>
      match decodeAscii (cabBytes msi i) with
      | .error e => .error e
      | .ok s =>
        match get_msi_cabs_from msi i f with
        | .error e => .error e
        | .ok rest => .ok (s :: rest)

/-- `list(get_msi_cabs(msi))`: the fully consumed generator. -/
def get_msi_cabs (msi : List Nat) : Except String (List String) :=
  get_msi_cabs_from msi 0 (msi.length + 1)

/-- All start offsets where the marker occurs in the buffer. -/
def occIdx (msi : List Nat) : List Nat :=
  (List.range (msi.length + 1)).filter
    (fun i => cabMarker.isPrefixOf (msi.drop i))

theorem cab_isPrefixOf_bound {msi : List Nat} {i : Nat}
    (h : cabMarker.isPrefixOf (msi.drop i) = true) : i + 4 ≤ msi.length := by
  have hp : cabMarker <+: msi.drop i := List.isPrefixOf_iff_prefix.mp h
  have hl : cabMarker.length ≤ (msi.drop i).length := hp.length_le
  simp only [cabMarker, List.length_cons, List.length_nil,
    List.length_drop] at hl
  omega

theorem mem_occIdx {msi : List Nat} {i : Nat} :
    i ∈ occIdx msi ↔ cabMarker.isPrefixOf (msi.drop i) = true := by
  constructor
  · intro h
    exact (List.mem_filter.mp h).2
  · intro h
    refine List.mem_filter.mpr ⟨List.mem_range.mpr ?_, h⟩
    have := cab_isPrefixOf_bound h
    omega

theorem bytesFindAux_some (msi pat : List Nat) :
    ∀ (fuel start i : Nat), bytesFindAux msi pat start fuel = some i →
      start ≤ i ∧ pat.isPrefixOf (msi.drop i) = true ∧
        ∀ j, start ≤ j → j < i → pat.isPrefixOf (msi.drop j) = false := by
  intro fuel
  induction fuel with
  | zero => intro start i h; exact absurd h (by simp [bytesFindAux])
  | succ f ih =>
    intro start i h
    rw [bytesFindAux] at h
    by_cases hpre : pat.isPrefixOf (msi.drop start)
    · rw [if_pos hpre] at h
      obtain rfl : start = i := by injection h
      exact ⟨Nat.le_refl _, hpre, fun j h1 h2 => absurd (Nat.lt_of_le_of_lt h1 h2)
        (Nat.lt_irrefl _)⟩
    · rw [if_neg hpre] at h
      by_cases hlt : start < msi.length
      · rw [if_pos hlt] at h
        obtain ⟨h1, h2, h3⟩ := ih (start + 1) i h
        refine ⟨by omega, h2, ?_⟩
        intro j hj1 hj2
        by_cases hjs : j = start
        · rw [hjs]
          exact Bool.eq_false_iff.mpr hpre
        · exact h3 j (by omega) hj2
      · rw [if_neg hlt] at h
        exact absurd h (by simp)

theorem bytesFindAux_none (msi pat : List Nat) (hpat : pat ≠ []) :
    ∀ (fuel start : Nat), msi.length + 1 ≤ start + fuel →
      bytesFindAux msi pat start fuel = none →
      ∀ j, start ≤ j → pat.isPrefixOf (msi.drop j) = false := by
  intro fuel
  induction fuel with
  | zero =>
    intro start hle _ j hj
    have hdrop : msi.drop j = [] := List.drop_eq_nil_of_le (by omega)
    rw [hdrop]
    cases pat with
    | nil => exact absurd rfl hpat
    | cons p ps => rfl
  | succ f ih =>
    intro start hle h j hj
    rw [bytesFindAux] at h
    by_cases hpre : pat.isPrefixOf (msi.drop start)
    · rw [if_pos hpre] at h; exact absurd h (by simp)
    · rw [if_neg hpre] at h
      by_cases hjs : j = start
      · rw [hjs]; exact Bool.eq_false_iff.mpr hpre
      · by_cases hlt : start < msi.length
        · rw [if_pos hlt] at h
          exact ih (start + 1) (by omega) h j (by omega)
        · have hdrop : msi.drop j = [] := List.drop_eq_nil_of_le (by omega)
          rw [hdrop]
          cases pat with
          | nil => exact absurd rfl hpat
          | cons p ps => rfl

theorem bytesFind_none (msi : List Nat) (start : Nat)
    (h : bytesFind msi cabMarker start = none) :
    ∀ j, start ≤ j → cabMarker.isPrefixOf (msi.drop j) = false :=
  bytesFindAux_none msi cabMarker (by simp [cabMarker])
    (msi.length + 1 - start) start (by omega) h

theorem bytesFind_some (msi : List Nat) (start i : Nat)
    (h : bytesFind msi cabMarker start = some i) :
    i ∈ occIdx msi ∧ start ≤ i ∧
      ∀ j ∈ occIdx msi, start ≤ j → i ≤ j := by
  obtain ⟨h1, h2, h3⟩ :=
    bytesFindAux_some msi cabMarker (msi.length + 1 - start) start i h
  refine ⟨mem_occIdx.mpr h2, h1, ?_⟩
  intro j hj hsj
  by_contra hc
  have hji : j < i := by omega
  have := h3 j hsj hji
  rw [mem_occIdx.mp hj] at this
  exact absurd this (by simp)

theorem occIdx_no_overlap {msi : List Nat} {i j : Nat}
    (hi : i ∈ occIdx msi) (hj : j ∈ occIdx msi) (hij : i < j) :
    i + 4 ≤ j := by
  by_contra hc
  have hd : j - i = 1 ∨ j - i = 2 ∨ j - i = 3 := by omega
  obtain ⟨t, ht⟩ := List.isPrefixOf_iff_prefix.mp (mem_occIdx.mp hi)
  obtain ⟨u, hu⟩ := List.isPrefixOf_iff_prefix.mp (mem_occIdx.mp hj)
  have hdrop : (msi.drop i).drop (j - i) = msi.drop j := by
    rw [List.drop_drop]
    congr 1
    omega
  rw [← hdrop, ← ht] at hu
  rcases hd with h1 | h1 | h1
  all_goals rw [h1] at hu; simp [cabMarker] at hu

theorem occIdx_pairwise (msi : List Nat) : (occIdx msi).Pairwise (· < ·) :=
  (List.pairwise_lt_range _).filter _

theorem filter_split_first (P Q : Nat → Bool) :
    ∀ (l : List Nat) (i : Nat), l.Pairwise (· < ·) → i ∈ l → P i = true →
      Q i = false → (∀ j ∈ l, j < i → P j = false ∧ Q j = false) →
      (∀ j ∈ l, i < j → P j = Q j) →
      l.filter P = i :: l.filter Q := by
  intro l
  induction l with
  | nil => intro i _ hi; exact absurd hi (by simp)
  | cons a t ih =>
    intro i hs hi hPi hQi hlt hgt
    have hpa := List.pairwise_cons.mp hs
    rcases List.mem_cons.mp hi with rfl | hit
    · have hPQ : ∀ j ∈ t, P j = Q j := fun j hj =>
        hgt j (List.mem_cons_of_mem _ hj) (hpa.1 j hj)
      simp only [List.filter_cons, hPi, if_true, hQi, Bool.false_eq_true,
        if_false]
      rw [List.filter_congr hPQ]
    · have hai : a < i := hpa.1 i hit
      have hPa : P a = false := (hlt a (by simp) hai).1
      have hQa : Q a = false := (hlt a (by simp) hai).2
      simp only [List.filter_cons, hPa, hQa, Bool.false_eq_true, if_false]
      exact ih i hpa.2 hit hPi hQi
        (fun j hj hji => hlt j (List.mem_cons_of_mem _ hj) hji)
        (fun j hj hji => hgt j (List.mem_cons_of_mem _ hj) hji)

theorem get_msi_cabs_from_spec (msi : List Nat)
    (hascii : ∀ i ∈ occIdx msi,
      (cabBytes msi i).all (fun b => b < 128) = true) :
    ∀ (fuel index : Nat), msi.length + 1 ≤ fuel + index → 1 ≤ fuel →
      get_msi_cabs_from msi index fuel =
        .ok (((occIdx msi).filter (fun k => decide (index + 4 ≤ k))).map
          (fun k => String.mk ((cabBytes msi k).map Char.ofNat))) := by
  intro fuel
  induction fuel with
  | zero => intro index _ h1; omega
  | succ f ih =>
    intro index hle _
    rw [get_msi_cabs_from]
    cases hfind : bytesFind msi cabMarker (index + 4) with
    | none =>
      have hempty :
          (occIdx msi).filter (fun k => decide (index + 4 ≤ k)) = [] := by
        apply List.filter_eq_nil_iff.mpr
        intro a ha
        simp only [decide_eq_true_eq]
        intro hc
        have hfalse := bytesFind_none msi (index + 4) hfind a hc
        rw [mem_occIdx.mp ha] at hfalse
        simp at hfalse
      rw [hempty]
      rfl
    | some i =>
      obtain ⟨hiocc, hile, himin⟩ := bytesFind_some msi (index + 4) i hfind
      have hibound : i + 4 ≤ msi.length :=
        cab_isPrefixOf_bound (mem_occIdx.mp hiocc)
      have hdec : decodeAscii (cabBytes msi i) =
          .ok (String.mk ((cabBytes msi i).map Char.ofNat)) := by
        rw [decodeAscii, if_pos (hascii i hiocc)]
      simp only [hdec, ih i (by omega) (by omega)]
      have hfsplit : (occIdx msi).filter (fun k => decide (index + 4 ≤ k)) =
          i :: (occIdx msi).filter (fun k => decide (i + 4 ≤ k)) := by
        apply filter_split_first _ _ _ i (occIdx_pairwise msi) hiocc
        · simp [hile]
        · simp
        · intro j hj hji
          constructor
          · simp only [decide_eq_false_iff_not]
            intro hc
            exact absurd (himin j hj hc) (by omega)
          · simp only [decide_eq_false_iff_not]
            omega
        · intro j hj hij
          have hQj : i + 4 ≤ j := occIdx_no_overlap hiocc hj hij
          have hPj : index + 4 ≤ j := by omega
          simp [hPj, hQj]
      rw [hfsplit, List.map_cons]

theorem pySliceList_nonneg (l : List Nat) (a b : Int) (ha : 0 ≤ a)
    (hb : 0 ≤ b) : pySliceList l a b = (l.take b.toNat).drop a.toNat := by
  simp only [pySliceList]
  rw [if_neg (by omega), if_neg (by omega)]

/-- Claim C4 (corrected): the scanner yields the empty sequence on a
buffer with no occurrence of `b".cab"`; and when every occurrence starts
at offset at least 32 with its 32 preceding bytes ASCII — the layout of a
real installer database, whose first search at offset 4 and fixed-width
slice assume exactly this — it yields one name per occurrence, the 32
bytes immediately preceding the match plus the matched suffix decoded as
ASCII. Without those provisos the claim fails: the first search starts at
offset 4, an occurrence before offset 32 is sliced short, and a non-ASCII
byte raises `UnicodeDecodeError`. -/
theorem get_msi_cabs_spec (msi : List Nat)
    (h32 : ∀ i ∈ occIdx msi, 32 ≤ i)
    (hascii : ∀ i ∈ occIdx msi,
      (cabBytes msi i).all (fun b => b < 128) = true) :
    get_msi_cabs msi =
      .ok ((occIdx msi).map
        (fun k => String.mk ((cabBytes msi k).map Char.ofNat))) ∧
    (occIdx msi = [] → get_msi_cabs msi = .ok []) ∧
    ∀ i ∈ occIdx msi, cabBytes msi i = (msi.drop (i - 32)).take 36 := by
  have hfilter :
      (occIdx msi).filter (fun k => decide (0 + 4 ≤ k)) = occIdx msi := by
    apply List.filter_eq_self.mpr
    intro a ha
    simp only [decide_eq_true_eq]
    have := h32 a ha
    omega
  have hmain : get_msi_cabs msi =
      .ok ((occIdx msi).map
        (fun k => String.mk ((cabBytes msi k).map Char.ofNat))) := by
    rw [get_msi_cabs,
      get_msi_cabs_from_spec msi hascii (msi.length + 1) 0 (by omega)
        (by omega),
      hfilter]
  refine ⟨hmain, ?_, ?_⟩
  · intro hocc
    rw [hmain, hocc]
    rfl
  · intro i hi
    have h32i := h32 i hi
    have hbound := cab_isPrefixOf_bound (mem_occIdx.mp hi)
    have h1 : ((i : Int) + 4).toNat = i + 4 := by omega
    have h2 : ((i : Int) - 32).toNat = i - 32 := by omega
    rw [cabBytes, pySliceList_nonneg _ _ _ (by omega) (by omega), h1, h2,
      List.drop_take]
    congr 1
    omega

/-- Witness for C4 at a concrete input: 32 bytes of `A` followed by
`.cab` yield exactly the one name made of those 32 bytes plus the
suffix. -/
theorem get_msi_cabs_spec_witness :
    get_msi_cabs (List.replicate 32 65 ++ [46, 99, 97, 98]) =
      .ok ["AAAAAAAAAAAAAAAAAAAAAAAAAAAAAAAA.cab"] := by
  have h := (get_msi_cabs_spec (List.replicate 32 65 ++ [46, 99, 97, 98])
    (by decide) (by decide)).1
  rw [h]
  rfl

/-- Counterexample to claim C4 as stated: the four-byte buffer `b".cab"`
has exactly one occurrence of the marker (at offset 0), yet the scanner —
whose first search starts at offset 4 — yields no name at all. -/
theorem get_msi_cabs_misses_first_cex :
    get_msi_cabs [46, 99, 97, 98] = .ok [] ∧
    occIdx [46, 99, 97, 98] = [0] :=
  ⟨rfl, rfl⟩
